import Mathlib

/-!
# DictionaryLogger: a shallow embedding of `main.go`

`main.go` is a one-shot command-line tool: `search <word>` prints the
definitions of a word, looking first in a local SQLite table and then at a
remote dictionary service, `list` prints what was stored and `help` prints
the commands.

The embedding follows the source function by function and keeps its names.

* Text is `String`; what the program prints is collected in `Outcome.stdout`.
* The SQLite table `definition (word TEXT, results TEXT)` is the list of its
  rows in rowid order (`DB`).  The program writes its SQL by `fmt.Sprintf`,
  pasting the word and the rendered text between double quotes, so the
  embedding builds the very same statement text and hands it to a small model
  of what SQLite does with that text (`sqlitePrepareInsert`,
  `sqlitePrepareSelect`): how a double-quoted token is scanned, and how
  SQLite resolves such a token (a column name when one matches, a string
  literal otherwise).  Every run has an outcome: what the database does with
  a text that leaves this fragment (a lone double quote, a second statement
  pasted in, a rowid column), or with an insertion handed over while the rows
  of the lookup are still open, is given by the environment.  The table is
  taken to exist with the schema `initDB` gave it.
* What is not in the source file is a parameter (`Env`): Go's
  `strings.ToLower`, the reply of the remote service to a URL, the order in
  which Go ranges over a map, and SQLite outside the fragment.
-/

namespace DictionaryLogger

set_option maxRecDepth 1000000

/-! ## Data model (lines 37-45, 65) -/

/-- One element of `Definitions`: a definition text with its example. -/
structure DefinitionPair where
  Definition : String
  Example : String
deriving DecidableEq

/-- One element of `Meanings`: a part of speech and its definitions. -/
structure Meaning where
  PartOfSpeech : String
  Definitions : List DefinitionPair
deriving DecidableEq

/-- The `SearchResult` struct. -/
structure SearchResult where
  Meanings : List Meaning
deriving DecidableEq

/-- The `SearchResults` slice type. -/
abbrev SearchResults := List SearchResult

/-! ## Rendering (lines 47-76) -/

/-- The method `SearchResult.String`: the outer loop over `Meanings` and the
inner loop over `Definitions`, each `WriteString` appending to the buffer. -/
def SearchResult_String (sr : SearchResult) : String :=
  sr.Meanings.foldl (fun buffer m =>
    m.Definitions.foldl (fun buffer d =>
        (buffer ++ ("\t\tDefinition: \n \t\t\t\t " ++ d.Definition ++ "\n"))
          ++ ("\t\tExample: \n \t\t\t\t " ++ d.Example ++ "\n\n"))
      (buffer ++ (m.PartOfSpeech ++ "\n"))) ""

/-- The loop of `SearchResults.String` from index `i` on, over the elements
that remain, with the buffer written so far. -/
def SearchResults_String_loop : Nat → List SearchResult → String → String
  | _, [], strBuff => strBuff
  | i, sr :: rest, strBuff =>
    SearchResults_String_loop (i + 1) rest
      ((strBuff ++ ("Definition " ++ toString i ++ ": \n\n")) ++ ("\t" ++ SearchResult_String sr))

/-- The method `SearchResults.String`. -/
def SearchResults_String (srs : SearchResults) : String :=
  SearchResults_String_loop 0 srs ""

/-! ## The store and the SQL text (lines 78-153) -/

/-- A row of the table `definition`: the columns `word` and `results`. -/
abbrev Row := String × String

/-- The table `definition`, its rows in rowid order. -/
abbrev DB := List Row

/-- Result of compiling a statement text in the modelled fragment: the
statement it stands for (`done`), a refusal (`failed`, the Go `err != nil`),
or a text outside the fragment (`unmodelled`), which the environment
answers. -/
inductive Sql (α : Type) where
  | done (a : α)
  | failed
  | unmodelled
deriving DecidableEq

/-- The function `initDB`: the table is created empty.  The text also holds
`ALTER TABLE definition ADD CONSTRAINT UQ_Word UNIQUE (word);`, but SQLite has
no `ALTER TABLE ... ADD CONSTRAINT` and `db.Prepare` compiles the first
statement of a text only, so the table carries no uniqueness constraint and
a store is any list of rows. -/
def initDB : DB := []

/-- SQLite scanning a double-quoted token whose opening quote was consumed:
two quotes in a row stand for one quote character, a single quote closes the
token, and the end of the text or a NUL character (the statement travels as a
C string) leaves the token unterminated (`none`).  Returns the token's text
and what follows the closing quote. -/
def scanQuoted : List Char → Option (List Char × List Char)
  | [] => none
  | c :: cs =>
    if c = '\x00' then none
    else if c = '"' then
      match cs with
      | '"' :: cs' => (scanQuoted cs').map fun p => ('"' :: p.1, p.2)
      | _ => some ([], cs)
    else (scanQuoted cs).map fun p => (c :: p.1, p.2)

/-- Lowering of the ASCII letters of a text, every other character kept. -/
def asciiLower (s : String) : String := String.mk (s.data.map Char.toLower)

/-- Removes the leading text `lead` from `s`, when `s` starts with it. -/
def stripLead : List Char → List Char → Option (List Char)
  | [], s => some s
  | _ :: _, [] => none
  | a :: lead, c :: s => if a = c then stripLead lead s else none

/-- The statement text of `addResult` (line 105). -/
def insertResultSQL (word res : String) : String :=
  "INSERT INTO definition (word, results) VALUES (\"" ++ word ++ "\", \"" ++ res ++ "\");"

/-- The statement text of `queryResultsByWord` (line 119). -/
def queryByWordSQL (word : String) : String :=
  "SELECT results FROM definition WHERE word=\"" ++ word ++ "\";"

/-- The statement text of `retrieveAllResults` (line 137). -/
def selectAllQuerySQL : String := "SELECT word, results from definition;"

/-- SQLite compiling the text of an `INSERT INTO definition (word, results)
VALUES ("..", "..");`: the two double-quoted tokens are scanned; no column is
in scope in a `VALUES` list, so both are string literals, and the row to
insert is their texts.  An unterminated token is an error.  Any other text
is outside the fragment. -/
def sqlitePrepareInsert (sql : String) : Sql Row :=
  match stripLead "INSERT INTO definition (word, results) VALUES (\"".data sql.data with
  | none => .unmodelled
  | some r0 =>
    match scanQuoted r0 with
    | none => .failed
    | some (w, r1) =>
      match stripLead ", \"".data r1 with
      | none => .unmodelled
      | some r2 =>
        match scanQuoted r2 with
        | none => .failed
        | some (r, r3) =>
          match stripLead ");".data r3 with
          | some [] => .done (String.mk w, String.mk r)
          | _ => .unmodelled

/-- The right-hand side of `word = ...` once SQLite has resolved the
double-quoted token. -/
inductive Operand where
  | literal (text : String)
  | columnWord
  | columnResults
deriving DecidableEq

/-- SQLite resolving a double-quoted token in the `WHERE` clause.  In SQL a
double-quoted token is an identifier; SQLite compares it, without regard to
ASCII case, with the columns in scope and falls back to a string literal only
when no column has that name (its documented "double-quoted string literal"
leniency, on which every lookup of this program relies).  The implicit rowid
columns drag in numeric affinity and are left outside the fragment. -/
def resolveQuoted (tok : String) : Sql Operand :=
  let name := asciiLower tok
  if name = "word" then .done .columnWord
  else if name = "results" then .done .columnResults
  else if name = "rowid" ∨ name = "oid" ∨ name = "_rowid_" then .unmodelled
  else .done (.literal tok)

/-- SQLite compiling the text of a `SELECT results FROM definition WHERE
word="..";`.  A text that goes on after the `;` is outside the fragment:
`db.Query` runs what follows as further statements. -/
def sqlitePrepareSelect (sql : String) : Sql Operand :=
  match stripLead "SELECT results FROM definition WHERE word=\"".data sql.data with
  | none => .unmodelled
  | some r0 =>
    match scanQuoted r0 with
    | none => .failed
    | some (w, r1) =>
      match stripLead ";".data r1 with
      | some [] => resolveQuoted (String.mk w)
      | _ => .unmodelled

/-- Whether a row satisfies `word = operand` (text comparison, byte for
byte). -/
def Operand.selects (o : Operand) (row : Row) : Bool :=
  match o with
  | .literal text => decide (row.1 = text)
  | .columnWord => true
  | .columnResults => decide (row.1 = row.2)

/-! ## The environment -/

/-- What `http.Get` followed by the JSON decoder gives for a URL. -/
inductive Reply where
  | unreachable (msg : String)
  | undecodable
  | decoded (respData : SearchResults)
deriving DecidableEq

/-- What `queryResultsByWord` leaves behind, with the table afterwards:
`db.Query` returned an error (`refused`), `row.Next()` found no row (`noRow`),
or the first row was scanned into `sr` (`row`); in the last case the rows are
never closed and the handle stays open for the rest of the run. -/
inductive Looked where
  | refused (db : DB)
  | noRow (db : DB)
  | row (sr : String) (db : DB)
deriving DecidableEq

/-- The parts of a run that the source file does not fix: `strings.ToLower`
of the Go library, the remote service, the order in which `range` visits the
entries of a map (some rearrangement of them), and the database on the texts
that the fragment above does not cover: `sqliteQuery` is what `db.Query` does
with a lookup text outside the fragment (it runs every statement of the
text, so the table may change), `sqliteExec` is what `db.Prepare` and `Exec`
do with an insertion text outside the fragment, or with any insertion text
while the rows of the lookup are still open (`none` is an error, the table
unchanged). -/
structure Env where
  toLower : String → String
  httpGet : String → Reply
  rangeOrder : List (String × String) → List (String × String)
  rangeOrder_perm : ∀ m, (rangeOrder m).Perm m
  sqliteQuery : String → DB → Looked
  sqliteExec : String → DB → Option DB

/-- The named result `sr` of `queryResultsByWord`. -/
def Looked.sr : Looked → String
  | .refused _ => ""
  | .noRow _ => ""
  | .row sr _ => sr

/-- Whether `queryResultsByWord` returned `err != nil`. -/
def Looked.err : Looked → Bool
  | .refused _ => true
  | .noRow _ => false
  | .row _ _ => false

/-- The table after the lookup. -/
def Looked.db : Looked → DB
  | .refused db => db
  | .noRow db => db
  | .row _ db => db

/-- Whether the rows of the lookup are still open. -/
def Looked.held : Looked → Bool
  | .refused _ => false
  | .noRow _ => false
  | .row _ _ => true

/-! ## The store functions (lines 103-153) -/

/-- The function `addResult`: the statement is written, prepared and
executed; the result is the table afterwards, `none` when `err != nil` (the
table is then unchanged).  `held` says whether the rows of the lookup are
still open. -/
def addResult (env : Env) (held : Bool) (word res : String) (db : DB) : Option DB :=
  if held then env.sqliteExec (insertResultSQL word res) db
  else
    match sqlitePrepareInsert (insertResultSQL word res) with
    | .done row => some (db ++ [row])
    | .failed => none
    | .unmodelled => env.sqliteExec (insertResultSQL word res) db

/-- The function `queryResultsByWord`: the `results` column of the first
selected row, the empty string when no row is selected or the text is
refused. -/
def queryResultsByWord (env : Env) (word : String) (db : DB) : Looked :=
  match sqlitePrepareSelect (queryByWordSQL word) with
  | .done operand =>
    match db.find? operand.selects with
    | some row => .row row.2 db
    | none => .noRow db
  | .failed => .refused db
  | .unmodelled => env.sqliteQuery (queryByWordSQL word) db

/-- The assignment `rs[word] = results` on a Go map kept as a list of
entries with distinct keys. -/
def mapAssign : List (String × String) → String → String → List (String × String)
  | [], word, results => [(word, results)]
  | e :: rest, word, results =>
    if e.1 = word then (word, results) :: rest else e :: mapAssign rest word results

/-- The function `retrieveAllResults`: every row is read in turn and assigned
into the map.  The statement text is constant and compiles against the
table, so no error arises. -/
def retrieveAllResults (db : DB) : List (String × String) :=
  db.foldl (fun rs row => mapAssign rs row.1 row.2) []

/-- What one run of the program did: the text printed, the code passed to
`os.Exit` if it was called, the table afterwards, the SQL statements handed
to the database and the URLs requested, both in order. -/
structure Outcome where
  stdout : String
  exit : Option Nat
  db : DB
  statements : List String
  requests : List String
deriving DecidableEq

/-! ## Commands (lines 190-292) -/

/-- The function `help`. -/
def help (args : List String) (db : DB) : Outcome :=
  if args.length ≠ 2 then
    ⟨"no arguments required for help command\n", some 0, db, [], []⟩
  else
    ⟨"\n\t" ++ "help" ++ ": List all commands\n\n\t" ++ "list"
        ++ ": Print all previous searches, --oneline to omit definitions\n\n\t" ++ "search"
        ++ ": Search for definition and record result\n\t\n",
      none, db, [], []⟩

/-- The function `list`. -/
def list (env : Env) (args : List String) (db : DB) : Outcome :=
  let oneline : Bool :=
    match args with
    | _ :: _ :: flag :: _ => decide (flag = "--oneline")
    | _ => false
  let history := retrieveAllResults db
  ⟨(env.rangeOrder history).foldl (fun out e =>
      if oneline then out ++ ("Word: " ++ e.1 ++ "\n")
      else (out ++ ("Word: " ++ e.1 ++ "\n")) ++ (e.2 ++ "\n")) "",
    none, db, [selectAllQuerySQL], []⟩

/-- The URL requested by `search` (line 246). -/
def searchURL (word : String) : String :=
  "https://api.dictionaryapi.dev/api/v2/entries/en/" ++ word

/-- The part of `search` after a lookup that gave no text (lines 246-268). -/
def searchRemote (env : Env) (word : String) (looked : Looked) : Outcome :=
  match env.httpGet (searchURL word) with
  | .unreachable msg =>
    ⟨"error occured during search | " ++ msg ++ "\n", some 1, looked.db,
      [queryByWordSQL word], [searchURL word]⟩
  | .undecodable =>
    ⟨"unable to find definition\n", none, looked.db, [queryByWordSQL word], [searchURL word]⟩
  | .decoded respData =>
    if respData.length = 0 then
      ⟨"", none, looked.db, [queryByWordSQL word], [searchURL word]⟩
    else
      let result := SearchResults_String respData
      match addResult env looked.held word result looked.db with
      | some db' =>
        ⟨result ++ "\n", none, db',
          [queryByWordSQL word, insertResultSQL word result], [searchURL word]⟩
      | none =>
        ⟨result ++ "\n", none, looked.db,
          [queryByWordSQL word, insertResultSQL word result], [searchURL word]⟩

/-- The function `search`. -/
def search (env : Env) (args : List String) (db : DB) : Outcome :=
  match args with
  | _ :: _ :: arg :: _ =>
    let word := env.toLower arg
    let looked := queryResultsByWord env word db
    if looked.err = true ∨ looked.sr = "" then searchRemote env word looked
    else ⟨looked.sr ++ "\n", none, looked.db, [queryByWordSQL word], []⟩
  | _ => ⟨"requires a single word after the search command\n", none, db, [], []⟩

/-- The function `main`. -/
def main (env : Env) (args : List String) (db : DB) : Outcome :=
  match args with
  | _ :: cmd :: _ =>
    let command := env.toLower cmd
    if command = "help" then help args db
    else if command = "list" then list env args db
    else if command = "search" then search env args db
    else
      ⟨"invalid command | use command 'help' for a list of available commands\n",
        some 0, db, [], []⟩
  | _ => ⟨"use command 'help' for a list of available commands\n", some 0, db, [], []⟩

/-- A sequence of runs of the program, each with its own environment and
argument vector, on the table left by the run before. -/
def runAll : List (Env × List String) → DB → DB
  | [], db => db
  | (env, args) :: rest, db => runAll rest (main env args db).db

/-! ## Vocabulary of the statements -/

/-- Concatenation of a sequence of texts, in order. -/
def concat : List String → String
  | [] => ""
  | s :: rest => s ++ concat rest

/-- Rendering of one entry as the specification words it: over the meanings
in order, the part-of-speech label and a newline, then for each (definition,
example) pair in order the indented `Definition:` block and the indented
`Example:` block. -/
def specEntryText (sr : SearchResult) : String :=
  concat (sr.Meanings.map fun m =>
    (m.PartOfSpeech ++ "\n") ++ concat (m.Definitions.map fun d =>
      ("\t\tDefinition: \n \t\t\t\t " ++ d.Definition ++ "\n")
        ++ ("\t\tExample: \n \t\t\t\t " ++ d.Example ++ "\n\n")))

/-- Rendering of a sequence of entries as the specification words it, the
indices counted from `i`: for each entry in order `Definition i: `, an empty
line, a tab and the entry's text. -/
def specResultsTextFrom : Nat → List SearchResult → String
  | _, [] => ""
  | i, sr :: rest =>
    (("Definition " ++ toString i ++ ": \n\n") ++ ("\t" ++ specEntryText sr))
      ++ specResultsTextFrom (i + 1) rest

/-- The part-of-speech labels, definitions and examples of an input, in input
order. -/
def fieldsOf (rs : List SearchResult) : List String :=
  (rs.map fun sr =>
    (sr.Meanings.map fun m =>
      m.PartOfSpeech :: (m.Definitions.map fun d => [d.Definition, d.Example]).flatten).flatten).flatten

/-- The texts `fs` occur in `s` one after the other, without overlap and in
the order of the list. -/
def OccursInOrder : List String → String → Prop
  | [], _ => True
  | f :: fs, s => ∃ pre post, s = pre ++ f ++ post ∧ OccursInOrder fs post

/-- The text `x` occurs in `s`. -/
def Contains (s x : String) : Prop := ∃ pre post, s = pre ++ x ++ post

/-- An environment for the worked examples: ASCII lowering (what
`strings.ToLower` does on ASCII text), a remote service that gives the same
reply to every URL, a map ranged over in the order it was filled, and a
database that refuses what the fragment does not cover (the worked examples
stay inside the fragment and never ask it). -/
def envWith (reply : Reply) : Env :=
  ⟨asciiLower, fun _ => reply, fun m => m, fun _ => List.Perm.refl _,
    fun _ db => Looked.refused db, fun _ _ => none⟩

/-- The remote response of the worked example for the word `probe`. -/
def probeResponse : SearchResults :=
  [⟨[⟨"noun", [⟨"a test", "this is a test"⟩]⟩]⟩]

/-- The text `SearchResults.String` gives for `probeResponse`. -/
def probeText : String :=
  "Definition 0: \n\n\tnoun\n\t\tDefinition: \n \t\t\t\t a test\n\t\tExample: \n \t\t\t\t this is a test\n\n"

/-- A text without a double quote and without a NUL character: between
double quotes SQLite reads it back as it stands. -/
def Plain (s : String) : Prop := '"' ∉ s.data ∧ '\x00' ∉ s.data

/-- A text that names no column of the table `definition`, the implicit
rowid columns included, whatever its ASCII case. -/
def NotColumn (s : String) : Prop :=
  asciiLower s ∉ ["word", "results", "rowid", "oid", "_rowid_"]

/-- A run whose third argument, if there is one, is in lowercase a plain text
that names no column, and for which a non-empty reply of the remote service
renders to a plain text. -/
def PlainRun (env : Env) (args : List String) : Prop :=
  ∀ (p cmd w : String) (more : List String), args = p :: cmd :: w :: more →
    Plain (env.toLower w) ∧ NotColumn (env.toLower w)
      ∧ ∀ rs, env.httpGet (searchURL (env.toLower w)) = Reply.decoded rs → rs ≠ [] →
          Plain (SearchResults_String rs)

/-- A store with at most one row per word and no empty text. -/
def OneEntryPerWord (db : DB) : Prop :=
  (db.map Prod.fst).Nodup ∧ ∀ row ∈ db, row.2 ≠ ""

/-- A remote response whose definition text holds doubled double quotes. -/
def quotedResponse : SearchResults :=
  [⟨[⟨"verb", [⟨"to say \"\"hi\"\"", "hello"⟩]⟩]⟩]

/-! ## Rendering -/

theorem concat_append (xs ys : List String) : concat (xs ++ ys) = concat xs ++ concat ys := by
  induction xs with
  | nil => simp [concat]
  | cons x xs ih => simp [concat, ih, String.append_assoc]

theorem definitions_loop_eq (ds : List DefinitionPair) (buffer : String) :
    ds.foldl (fun buffer d =>
        (buffer ++ ("\t\tDefinition: \n \t\t\t\t " ++ d.Definition ++ "\n"))
          ++ ("\t\tExample: \n \t\t\t\t " ++ d.Example ++ "\n\n")) buffer
      = buffer ++ concat (ds.map fun d =>
          ("\t\tDefinition: \n \t\t\t\t " ++ d.Definition ++ "\n")
            ++ ("\t\tExample: \n \t\t\t\t " ++ d.Example ++ "\n\n")) := by
  induction ds generalizing buffer with
  | nil => simp [concat]
  | cons d ds ih =>
    simp only [List.foldl_cons, List.map_cons, concat]
    rw [ih]
    simp only [String.append_assoc]

theorem meanings_loop_eq (ms : List Meaning) (buffer : String) :
    ms.foldl (fun buffer m =>
      m.Definitions.foldl (fun buffer d =>
          (buffer ++ ("\t\tDefinition: \n \t\t\t\t " ++ d.Definition ++ "\n"))
            ++ ("\t\tExample: \n \t\t\t\t " ++ d.Example ++ "\n\n"))
        (buffer ++ (m.PartOfSpeech ++ "\n"))) buffer
      = buffer ++ concat (ms.map fun m =>
          (m.PartOfSpeech ++ "\n") ++ concat (m.Definitions.map fun d =>
            ("\t\tDefinition: \n \t\t\t\t " ++ d.Definition ++ "\n")
              ++ ("\t\tExample: \n \t\t\t\t " ++ d.Example ++ "\n\n"))) := by
  induction ms generalizing buffer with
  | nil => simp [concat]
  | cons m ms ih =>
    simp only [List.foldl_cons, List.map_cons, concat]
    rw [ih, definitions_loop_eq]
    simp only [String.append_assoc]

theorem SearchResult_String_eq (sr : SearchResult) :
    SearchResult_String sr = specEntryText sr := by
  unfold SearchResult_String specEntryText
  rw [meanings_loop_eq]
  simp

theorem SearchResults_String_loop_eq (rs : List SearchResult) (i : Nat) (strBuff : String) :
    SearchResults_String_loop i rs strBuff = strBuff ++ specResultsTextFrom i rs := by
  induction rs generalizing i strBuff with
  | nil => simp [SearchResults_String_loop, specResultsTextFrom]
  | cons sr rs ih =>
    simp only [SearchResults_String_loop, specResultsTextFrom]
    rw [ih, SearchResult_String_eq]
    simp only [String.append_assoc]

theorem occursInOrder_lead (fs : List String) (p s : String) (h : OccursInOrder fs s) :
    OccursInOrder fs (p ++ s) := by
  cases fs with
  | nil => trivial
  | cons f fs =>
    obtain ⟨pre, post, hs, hrest⟩ := h
    exact ⟨p ++ pre, post, by rw [hs]; simp [String.append_assoc], hrest⟩

theorem occursInOrder_append (fs gs : List String) (s t : String)
    (hs : OccursInOrder fs s) (ht : OccursInOrder gs t) :
    OccursInOrder (fs ++ gs) (s ++ t) := by
  induction fs generalizing s with
  | nil => exact occursInOrder_lead gs s t ht
  | cons f fs ih =>
    obtain ⟨pre, post, hs1, hrest⟩ := hs
    exact ⟨pre, post ++ t, by rw [hs1]; simp [String.append_assoc], ih post hrest⟩

theorem occursInOrder_trail (fs : List String) (s t : String) (h : OccursInOrder fs s) :
    OccursInOrder fs (s ++ t) := by
  have := occursInOrder_append fs [] s t h trivial
  simpa using this

theorem occursInOrder_single (f pre post : String) : OccursInOrder [f] (pre ++ f ++ post) :=
  ⟨pre, post, rfl, trivial⟩

theorem definitions_occur (ds : List DefinitionPair) :
    OccursInOrder ((ds.map fun d => [d.Definition, d.Example]).flatten)
      (concat (ds.map fun d =>
        ("\t\tDefinition: \n \t\t\t\t " ++ d.Definition ++ "\n")
          ++ ("\t\tExample: \n \t\t\t\t " ++ d.Example ++ "\n\n"))) := by
  induction ds with
  | nil => trivial
  | cons d ds ih =>
    simp only [List.map_cons, List.flatten_cons, concat]
    refine occursInOrder_append [d.Definition, d.Example] _ _ _ ?_ ih
    exact occursInOrder_append [d.Definition] [d.Example] _ _
      (occursInOrder_single _ _ _) (occursInOrder_single _ _ _)

theorem entry_occur (sr : SearchResult) :
    OccursInOrder ((sr.Meanings.map fun m =>
        m.PartOfSpeech :: (m.Definitions.map fun d => [d.Definition, d.Example]).flatten).flatten)
      (specEntryText sr) := by
  unfold specEntryText
  induction sr.Meanings with
  | nil => trivial
  | cons m ms ih =>
    simp only [List.map_cons, List.flatten_cons, concat]
    refine occursInOrder_append (m.PartOfSpeech :: _) _ _ _ ?_ ih
    have h1 : OccursInOrder [m.PartOfSpeech] (m.PartOfSpeech ++ "\n") := by
      have := occursInOrder_single m.PartOfSpeech "" "\n"
      simpa using this
    exact occursInOrder_append [m.PartOfSpeech] _ _ _ h1 (definitions_occur m.Definitions)

theorem results_occur (rs : List SearchResult) (i : Nat) :
    OccursInOrder (fieldsOf rs) (specResultsTextFrom i rs) := by
  induction rs generalizing i with
  | nil => trivial
  | cons sr rs ih =>
    simp only [fieldsOf, List.map_cons, List.flatten_cons, specResultsTextFrom]
    refine occursInOrder_append _ _ _ _ ?_ (ih (i + 1))
    exact occursInOrder_lead _ _ _ (occursInOrder_lead _ _ _ (entry_occur sr))

theorem append_ne_empty (a b : String) (h : a.data ≠ []) : a ++ b ≠ "" := by
  intro hab
  have := congrArg String.data hab
  simp at this
  exact h this.1

/-- Claim C10: `SearchResults.String` is the concatenation, for each index in
order, of `Definition i: `, an empty line, a tab and the text of entry `i`;
`SearchResult.String` is the concatenation over the meanings, in order, of
the label line and the `Definition:` and `Example:` blocks of each pair; every
label, definition and example occurs in the output in input order; and the
output of a non-empty sequence is not empty. -/
theorem c10_rendering (rs : SearchResults) :
    SearchResults_String rs = specResultsTextFrom 0 rs
      ∧ (∀ sr : SearchResult, SearchResult_String sr = specEntryText sr)
      ∧ OccursInOrder (fieldsOf rs) (SearchResults_String rs)
      ∧ (rs ≠ [] → SearchResults_String rs ≠ "") := by
  have h0 : SearchResults_String rs = specResultsTextFrom 0 rs := by
    unfold SearchResults_String
    rw [SearchResults_String_loop_eq]
    simp
  refine ⟨h0, SearchResult_String_eq, ?_, ?_⟩
  · rw [h0]
    exact results_occur rs 0
  · intro hne
    rw [h0]
    cases rs with
    | nil => exact absurd rfl hne
    | cons sr rest =>
      simp only [specResultsTextFrom, String.append_assoc]
      exact append_ne_empty _ _ (by decide)

/-- Claim C10 at the response of the worked example. -/
theorem c10_rendering_witness :
    SearchResults_String probeResponse = specResultsTextFrom 0 probeResponse
      ∧ (∀ sr : SearchResult, SearchResult_String sr = specEntryText sr)
      ∧ OccursInOrder (fieldsOf probeResponse) (SearchResults_String probeResponse)
      ∧ (probeResponse ≠ [] → SearchResults_String probeResponse ≠ "") :=
  c10_rendering probeResponse

/-! ## The map of `retrieveAllResults` and the output of `list` -/

theorem mapAssign_keys (m : List (String × String)) (w r : String) :
    (mapAssign m w r).map Prod.fst
      = if w ∈ m.map Prod.fst then m.map Prod.fst else m.map Prod.fst ++ [w] := by
  induction m with
  | nil => simp [mapAssign]
  | cons e rest ih =>
    by_cases h : e.1 = w
    · simp [mapAssign, h]
    · have h2 : ¬ w = e.1 := fun hw => h hw.symm
      simp only [mapAssign, h, if_false, List.map_cons, ih, List.mem_cons, h2, false_or]
      split <;> simp

theorem mem_mapAssign (m : List (String × String)) (w r : String) (e : String × String)
    (he : e ∈ mapAssign m w r) : e = (w, r) ∨ e ∈ m := by
  induction m with
  | nil => simpa [mapAssign] using he
  | cons x rest ih =>
    by_cases h : x.1 = w
    · simp only [mapAssign, h, if_true, List.mem_cons] at he
      rcases he with he | he
      · exact Or.inl he
      · exact Or.inr (List.mem_cons_of_mem _ he)
    · simp only [mapAssign, h, if_false, List.mem_cons] at he
      rcases he with he | he
      · exact Or.inr (he ▸ List.mem_cons_self _ _)
      · rcases ih he with h1 | h1
        · exact Or.inl h1
        · exact Or.inr (List.mem_cons_of_mem _ h1)

theorem foldl_mapAssign_keys (db : DB) (m : List (String × String))
    (hm : (m.map Prod.fst).Nodup) :
    ((db.foldl (fun rs row => mapAssign rs row.1 row.2) m).map Prod.fst).Nodup
      ∧ ∀ x, x ∈ (db.foldl (fun rs row => mapAssign rs row.1 row.2) m).map Prod.fst
          ↔ x ∈ m.map Prod.fst ∨ x ∈ db.map Prod.fst := by
  induction db generalizing m with
  | nil => simp [hm]
  | cons row rest ih =>
    have hk := mapAssign_keys m row.1 row.2
    have hnd : ((mapAssign m row.1 row.2).map Prod.fst).Nodup := by
      rw [hk]
      split
      · exact hm
      · rename_i hnot
        exact List.Nodup.append hm (List.nodup_singleton _) (by simpa using hnot)
    obtain ⟨h1, h2⟩ := ih (mapAssign m row.1 row.2) hnd
    refine ⟨h1, fun x => ?_⟩
    rw [List.foldl_cons, h2 x, hk]
    split
    · rename_i hin
      constructor
      · rintro (h | h)
        · exact Or.inl h
        · exact Or.inr (by simp [h])
      · rintro (h | h)
        · exact Or.inl h
        · simp only [List.map_cons, List.mem_cons] at h
          rcases h with h | h
          · exact Or.inl (h ▸ hin)
          · exact Or.inr h
    · simp only [List.mem_append, List.mem_singleton, List.map_cons, List.mem_cons]
      tauto

theorem foldl_mapAssign_mem (db : DB) (m : List (String × String)) (e : String × String)
    (he : e ∈ db.foldl (fun rs row => mapAssign rs row.1 row.2) m) : e ∈ m ∨ e ∈ db := by
  induction db generalizing m with
  | nil => exact Or.inl he
  | cons row rest ih =>
    rcases ih _ he with h | h
    · rcases mem_mapAssign m row.1 row.2 e h with h1 | h1
      · exact Or.inr (h1 ▸ List.mem_cons_self _ _)
      · exact Or.inl h1
    · exact Or.inr (List.mem_cons_of_mem _ h)

theorem retrieveAllResults_keys (db : DB) :
    ((retrieveAllResults db).map Prod.fst).Perm ((db.map Prod.fst).dedup) := by
  obtain ⟨h1, h2⟩ := foldl_mapAssign_keys db [] (by simp)
  refine (List.perm_ext_iff_of_nodup h1 (List.nodup_dedup _)).2 fun x => ?_
  rw [List.mem_dedup]
  simpa [retrieveAllResults] using h2 x

theorem retrieveAllResults_mem (db : DB) (e : String × String)
    (he : e ∈ retrieveAllResults db) : e ∈ db := by
  rcases foldl_mapAssign_mem db [] e he with h | h
  · simp at h
  · exact h

theorem ranged_keys (env : Env) (db : DB) :
    ((env.rangeOrder (retrieveAllResults db)).map Prod.fst).Perm ((db.map Prod.fst).dedup) :=
  ((env.rangeOrder_perm _).map Prod.fst).trans (retrieveAllResults_keys db)

theorem ranged_mem (env : Env) (db : DB) (e : String × String)
    (he : e ∈ env.rangeOrder (retrieveAllResults db)) : e ∈ db :=
  retrieveAllResults_mem db e ((env.rangeOrder_perm _).mem_iff.1 he)

theorem foldl_append_eq (f : String × String → String) (es : List (String × String))
    (out : String) :
    es.foldl (fun out e => out ++ f e) out = out ++ concat (es.map f) := by
  induction es generalizing out with
  | nil => simp [concat]
  | cons e es ih =>
    simp only [List.foldl_cons, List.map_cons, concat]
    rw [ih]
    simp only [String.append_assoc]

theorem list_oneline (env : Env) (db : DB) (p c : String) (more : List String) :
    (list env (p :: c :: "--oneline" :: more) db).stdout
      = concat (((env.rangeOrder (retrieveAllResults db)).map Prod.fst).map
          fun w => "Word: " ++ w ++ "\n") := by
  simp only [list, decide_True, if_true]
  rw [foldl_append_eq (fun e => "Word: " ++ e.1 ++ "\n")]
  simp [List.map_map, Function.comp_def]

theorem list_full_bare (env : Env) (db : DB) (p c : String) :
    (list env [p, c] db).stdout
      = concat ((env.rangeOrder (retrieveAllResults db)).map
          fun e => ("Word: " ++ e.1 ++ "\n") ++ (e.2 ++ "\n")) := by
  simp only [list]
  have := foldl_append_eq (fun e => ("Word: " ++ e.1 ++ "\n") ++ (e.2 ++ "\n"))
    (env.rangeOrder (retrieveAllResults db)) ""
  simpa [String.append_assoc] using this

theorem list_full_flag (env : Env) (db : DB) (p c flag : String) (more : List String)
    (hflag : flag ≠ "--oneline") :
    (list env (p :: c :: flag :: more) db).stdout
      = concat ((env.rangeOrder (retrieveAllResults db)).map
          fun e => ("Word: " ++ e.1 ++ "\n") ++ (e.2 ++ "\n")) := by
  simp only [list, hflag, decide_False]
  have := foldl_append_eq (fun e => ("Word: " ++ e.1 ++ "\n") ++ (e.2 ++ "\n"))
    (env.rangeOrder (retrieveAllResults db)) ""
  simpa [String.append_assoc] using this

/-- Claim C9: for every store, `list --oneline` prints exactly the lines
`Word: w`, one for each stored word, in some order, and nothing else; `list`
without the flag (no third argument, or another one) prints for each stored
word, in some order, the line `Word: w` followed by a text stored under `w`
and a newline; on the empty store both print nothing. -/
theorem c9_list_output (env : Env) (db : DB) (p c : String) (more : List String) :
    (∃ ws : List String, ws.Perm ((db.map Prod.fst).dedup)
        ∧ (list env (p :: c :: "--oneline" :: more) db).stdout
            = concat (ws.map fun w => "Word: " ++ w ++ "\n"))
      ∧ (∃ es : List (String × String), (es.map Prod.fst).Perm ((db.map Prod.fst).dedup)
          ∧ (∀ e ∈ es, e ∈ db)
          ∧ (list env [p, c] db).stdout
              = concat (es.map fun e => ("Word: " ++ e.1 ++ "\n") ++ (e.2 ++ "\n"))
          ∧ ∀ flag : String, flag ≠ "--oneline" →
              (list env (p :: c :: flag :: more) db).stdout
                = concat (es.map fun e => ("Word: " ++ e.1 ++ "\n") ++ (e.2 ++ "\n")))
      ∧ (list env (p :: c :: "--oneline" :: more) []).stdout = ""
      ∧ (list env [p, c] []).stdout = "" := by
  refine ⟨⟨_, ranged_keys env db, list_oneline env db p c more⟩,
    ⟨_, ranged_keys env db, ranged_mem env db, list_full_bare env db p c,
      fun flag hflag => list_full_flag env db p c flag more hflag⟩, ?_, ?_⟩
  · rw [list_oneline]
    have h := (env.rangeOrder_perm (retrieveAllResults [])).eq_nil
    simp only [retrieveAllResults, List.foldl_nil] at h
    simp [retrieveAllResults, h, concat]
  · rw [list_full_bare]
    have h := (env.rangeOrder_perm (retrieveAllResults [])).eq_nil
    simp only [retrieveAllResults, List.foldl_nil] at h
    simp [retrieveAllResults, h, concat]

/-- Claim C9 on a store of two words, with a flag that is not `--oneline`. -/
theorem c9_list_output_witness :
    "--all" ≠ "--oneline"
      ∧ ∃ es : List (String × String),
          (list (envWith Reply.undecodable) ["dictionarylogger", "list", "--all"]
              [("probe", probeText), ("apple", "A")]).stdout
            = concat (es.map fun e => ("Word: " ++ e.1 ++ "\n") ++ (e.2 ++ "\n")) :=
  ⟨by decide,
    (c9_list_output (envWith Reply.undecodable) [("probe", probeText), ("apple", "A")]
      "dictionarylogger" "list" []).2.1.elim
      fun es h => ⟨es, h.2.2.2 "--all" (by decide)⟩⟩

/-! ## Dispatch and the argument vector -/

theorem main_search (env : Env) (db : DB) (p cmd : String) (more : List String)
    (hcmd : env.toLower cmd = "search") :
    main env (p :: cmd :: more) db = search env (p :: cmd :: more) db := by
  simp [main, hcmd]

theorem main_list (env : Env) (db : DB) (p cmd : String) (more : List String)
    (hcmd : env.toLower cmd = "list") :
    main env (p :: cmd :: more) db = list env (p :: cmd :: more) db := by
  simp [main, hcmd]

theorem main_help (env : Env) (db : DB) (p cmd : String) (more : List String)
    (hcmd : env.toLower cmd = "help") :
    main env (p :: cmd :: more) db = help (p :: cmd :: more) db := by
  simp [main, hcmd]

theorem search_first_word (env : Env) (db : DB) (p cmd w : String) (more : List String) :
    search env (p :: cmd :: w :: more) db = search env [p, cmd, w] db := by
  simp only [search]

/-- The run of `search` when the lookup gave a text that is not empty. -/
theorem search_of_text (env : Env) (db db' : DB) (p cmd w t : String) (more : List String)
    (hlook : queryResultsByWord env (env.toLower w) db = Looked.row t db') (ht : t ≠ "") :
    search env (p :: cmd :: w :: more) db
      = ⟨t ++ "\n", none, db', [queryByWordSQL (env.toLower w)], []⟩ := by
  simp only [search, hlook, Looked.err, Looked.sr, Looked.db]
  rw [if_neg]
  simp [ht]

/-- The run of `search` when the lookup gave no text: the rest is
`searchRemote`. -/
theorem search_of_no_text (env : Env) (db : DB) (p cmd w : String) (more : List String)
    (hlook : (queryResultsByWord env (env.toLower w) db).err = true
      ∨ (queryResultsByWord env (env.toLower w) db).sr = "") :
    search env (p :: cmd :: w :: more) db
      = searchRemote env (env.toLower w) (queryResultsByWord env (env.toLower w) db) := by
  simp only [search]
  rw [if_pos hlook]

theorem searchRemote_statements (env : Env) (word : String) (looked : Looked) :
    (searchRemote env word looked).statements.head? = some (queryByWordSQL word)
      ∧ ∀ s ∈ (searchRemote env word looked).statements,
          s = queryByWordSQL word ∨ ∃ res, s = insertResultSQL word res := by
  unfold searchRemote
  split
  · simp
  · simp
  · split
    · simp
    · dsimp only
      split <;> simp

theorem search_statements (env : Env) (db : DB) (p cmd w : String) (more : List String) :
    (search env (p :: cmd :: w :: more) db).statements.head?
        = some (queryByWordSQL (env.toLower w))
      ∧ ∀ s ∈ (search env (p :: cmd :: w :: more) db).statements,
          s = queryByWordSQL (env.toLower w) ∨ ∃ res, s = insertResultSQL (env.toLower w) res := by
  simp only [search]
  split
  · exact searchRemote_statements env _ _
  · simp

theorem searchRemote_requests (env : Env) (word : String) (looked : Looked) :
    (searchRemote env word looked).requests = [searchURL word] := by
  unfold searchRemote
  split
  · rfl
  · rfl
  · split
    · rfl
    · dsimp only
      split <;> rfl

theorem searchRemote_decoded (env : Env) (word : String) (looked : Looked)
    (rs : SearchResults) (hreply : env.httpGet (searchURL word) = Reply.decoded rs)
    (hrs : rs ≠ []) :
    (searchRemote env word looked).stdout = SearchResults_String rs ++ "\n"
      ∧ (searchRemote env word looked).exit = none
      ∧ (searchRemote env word looked).statements
          = [queryByWordSQL word, insertResultSQL word (SearchResults_String rs)]
      ∧ (searchRemote env word looked).db
          = (match addResult env looked.held word (SearchResults_String rs) looked.db with
            | some db' => db'
            | none => looked.db) := by
  have hlen : ¬ rs.length = 0 := fun h => hrs (List.length_eq_zero.1 h)
  simp only [searchRemote, hreply, if_neg hlen]
  split <;> simp_all

/-- Claim C3: two words with the same lowercase form give the same run of
`search` (the same outcome: output, exit, final store, statements handed to
the store, remote requests), directly and through `main`; the run begins
with the lookup under the lowercase form, and every statement of it is that
lookup or an insertion under the lowercase form. -/
theorem c3_normalization (env : Env) (db : DB) (p cmd w1 w2 : String) (more : List String)
    (h : env.toLower w1 = env.toLower w2) :
    search env (p :: cmd :: w1 :: more) db = search env (p :: cmd :: w2 :: more) db
      ∧ (env.toLower cmd = "search" →
          main env (p :: cmd :: w1 :: more) db = main env (p :: cmd :: w2 :: more) db)
      ∧ (search env (p :: cmd :: w1 :: more) db).statements.head?
          = some (queryByWordSQL (env.toLower w2))
      ∧ ∀ s ∈ (search env (p :: cmd :: w1 :: more) db).statements,
          s = queryByWordSQL (env.toLower w2)
            ∨ ∃ res, s = insertResultSQL (env.toLower w2) res := by
  have hs : search env (p :: cmd :: w1 :: more) db = search env (p :: cmd :: w2 :: more) db := by
    simp only [search, h]
  refine ⟨hs, fun hcmd => ?_, ?_⟩
  · rw [main_search env db p cmd _ hcmd, main_search env db p cmd _ hcmd, hs]
  · rw [hs]
    exact search_statements env db p cmd w2 more

/-- Claim C3 at `Hello` and `hello` on the empty store: both runs fetch, print
and store under `hello`. -/
theorem c3_normalization_witness :
    (envWith (Reply.decoded probeResponse)).toLower "Hello"
        = (envWith (Reply.decoded probeResponse)).toLower "hello"
      ∧ search (envWith (Reply.decoded probeResponse)) ["dictionarylogger", "search", "Hello"] []
          = search (envWith (Reply.decoded probeResponse))
              ["dictionarylogger", "search", "hello"] []
      ∧ search (envWith (Reply.decoded probeResponse)) ["dictionarylogger", "search", "hello"] []
          = ⟨probeText ++ "\n", none, [("hello", probeText)],
              [queryByWordSQL "hello", insertResultSQL "hello" probeText],
              [searchURL "hello"]⟩ :=
  ⟨by decide,
    (c3_normalization (envWith (Reply.decoded probeResponse)) [] "dictionarylogger" "search"
      "Hello" "hello" [] (by decide)).1,
    by decide⟩

/-- Claim C7, as amended.  When the command is `search` and no argument
follows it, the message is printed, no statement reaches the store, no
request is made and the run returns without `os.Exit`.  When one or more
arguments follow, the run is the run on the first of them alone; it resolves
that word and prints the result: it begins with the lookup of the word in
lowercase; when the lookup gives a text that is not empty, that text and a
newline are printed, with nothing else done; when it gives none (no row, an
empty text or a refusal), the remote service is asked once, for that word,
and a non-empty reply is rendered, handed to the store under the word and
printed with a newline, an empty reply prints nothing, an undecodable one or
an unreachable service prints its message (the latter with exit code 1). -/
theorem c7_search_arguments (env : Env) (db : DB) (p cmd : String)
    (hcmd : env.toLower cmd = "search") :
    main env [p, cmd] db
        = ⟨"requires a single word after the search command\n", none, db, [], []⟩
      ∧ ∀ (w : String) (more : List String),
          main env (p :: cmd :: w :: more) db = main env [p, cmd, w] db
            ∧ (main env [p, cmd, w] db).statements.head?
                = some (queryByWordSQL (env.toLower w))
            ∧ (∀ t db', queryResultsByWord env (env.toLower w) db = Looked.row t db' →
                t ≠ "" →
                main env [p, cmd, w] db
                  = ⟨t ++ "\n", none, db', [queryByWordSQL (env.toLower w)], []⟩)
            ∧ ((queryResultsByWord env (env.toLower w) db).err = true
                  ∨ (queryResultsByWord env (env.toLower w) db).sr = "" →
                (main env [p, cmd, w] db).requests = [searchURL (env.toLower w)]
                  ∧ (∀ rs, env.httpGet (searchURL (env.toLower w)) = Reply.decoded rs →
                      rs ≠ [] →
                      (main env [p, cmd, w] db).stdout = SearchResults_String rs ++ "\n"
                        ∧ (main env [p, cmd, w] db).exit = none
                        ∧ (main env [p, cmd, w] db).statements
                            = [queryByWordSQL (env.toLower w),
                                insertResultSQL (env.toLower w) (SearchResults_String rs)])
                  ∧ (env.httpGet (searchURL (env.toLower w)) = Reply.decoded [] →
                      main env [p, cmd, w] db
                        = ⟨"", none, (queryResultsByWord env (env.toLower w) db).db,
                            [queryByWordSQL (env.toLower w)], [searchURL (env.toLower w)]⟩)
                  ∧ (env.httpGet (searchURL (env.toLower w)) = Reply.undecodable →
                      main env [p, cmd, w] db
                        = ⟨"unable to find definition\n", none,
                            (queryResultsByWord env (env.toLower w) db).db,
                            [queryByWordSQL (env.toLower w)], [searchURL (env.toLower w)]⟩)
                  ∧ ∀ msg, env.httpGet (searchURL (env.toLower w)) = Reply.unreachable msg →
                      main env [p, cmd, w] db
                        = ⟨"error occured during search | " ++ msg ++ "\n", some 1,
                            (queryResultsByWord env (env.toLower w) db).db,
                            [queryByWordSQL (env.toLower w)],
                            [searchURL (env.toLower w)]⟩) := by
  refine ⟨?_, fun w more => ⟨?_, ?_, fun t db' hlook ht => ?_, fun hlook => ?_⟩⟩
  · rw [main_search env db p cmd [] hcmd]
    simp [search]
  · rw [main_search env db p cmd (w :: more) hcmd, main_search env db p cmd [w] hcmd]
    exact search_first_word env db p cmd w more
  · rw [main_search env db p cmd [w] hcmd]
    exact (search_statements env db p cmd w []).1
  · rw [main_search env db p cmd [w] hcmd]
    exact search_of_text env db db' p cmd w t [] hlook ht
  · rw [main_search env db p cmd [w] hcmd, search_of_no_text env db p cmd w [] hlook]
    refine ⟨searchRemote_requests env _ _, fun rs hreply hrs => ?_, fun hreply => ?_,
      fun hreply => ?_, fun msg hreply => ?_⟩
    · obtain ⟨h1, h2, h3, _⟩ := searchRemote_decoded env _ _ rs hreply hrs
      exact ⟨h1, h2, h3⟩
    · simp [searchRemote, hreply]
    · simp [searchRemote, hreply]
    · simp [searchRemote, hreply]

/-- Claim C7, as amended, at `search` alone, at `search probe extra` and at
`search probe` on the empty store with the response of the worked example. -/
theorem c7_search_arguments_witness :
    (envWith (Reply.decoded probeResponse)).toLower "search" = "search"
      ∧ main (envWith (Reply.decoded probeResponse)) ["dictionarylogger", "search"] []
          = ⟨"requires a single word after the search command\n", none, [], [], []⟩
      ∧ main (envWith (Reply.decoded probeResponse))
            ["dictionarylogger", "search", "probe", "extra"] []
          = main (envWith (Reply.decoded probeResponse))
              ["dictionarylogger", "search", "probe"] []
      ∧ (main (envWith (Reply.decoded probeResponse))
            ["dictionarylogger", "search", "probe"] []).stdout
          = SearchResults_String probeResponse ++ "\n" :=
  ⟨by decide,
    (c7_search_arguments (envWith (Reply.decoded probeResponse)) [] "dictionarylogger" "search"
      (by decide)).1,
    ((c7_search_arguments (envWith (Reply.decoded probeResponse)) [] "dictionarylogger" "search"
      (by decide)).2 "probe" ["extra"]).1,
    ((((c7_search_arguments (envWith (Reply.decoded probeResponse)) [] "dictionarylogger"
      "search" (by decide)).2 "probe" []).2.2.2 (by decide)).2.1 probeResponse (by decide)
      (by decide)).1⟩

/-- Claim C7 fails as stated: with two arguments after `search` the message
is not printed; the first argument is looked up, fetched and stored. -/
theorem c7_two_arguments_counterexample :
    main (envWith (Reply.decoded probeResponse))
        ["dictionarylogger", "search", "probe", "extra"] []
      = ⟨probeText ++ "\n", none, [("probe", probeText)],
          [queryByWordSQL "probe", insertResultSQL "probe" probeText], [searchURL "probe"]⟩
    ∧ probeText ++ "\n" ≠ "requires a single word after the search command\n" := by
  decide

/-! ## The SQL text on plain words -/

theorem stripLead_append (lead s : List Char) : stripLead lead (lead ++ s) = some s := by
  induction lead with
  | nil => cases s <;> rfl
  | cons a lead ih => simp [stripLead, ih]

theorem scanQuoted_quote (rest : List Char) (hrest : ∀ cs, rest ≠ '"' :: cs) :
    scanQuoted ('"' :: rest) = some ([], rest) := by
  cases rest with
  | nil => rfl
  | cons d ds =>
    by_cases hd : d = '"'
    · exact absurd (hd ▸ rfl) (hrest ds)
    · unfold scanQuoted
      rw [if_neg (by decide), if_pos rfl]
      split
      · rename_i cs heq
        exact absurd heq (hrest _)
      · rfl

theorem scanQuoted_other (c : Char) (cs : List Char) (h0 : c ≠ '\x00') (hq : c ≠ '"') :
    scanQuoted (c :: cs) = (scanQuoted cs).map fun p => (c :: p.1, p.2) := by
  conv_lhs => unfold scanQuoted
  simp only [if_neg h0, if_neg hq]

theorem scanQuoted_plain (l rest : List Char) (hq : '"' ∉ l) (hz : '\x00' ∉ l)
    (hrest : ∀ cs, rest ≠ '"' :: cs) : scanQuoted (l ++ '"' :: rest) = some (l, rest) := by
  induction l with
  | nil => exact scanQuoted_quote rest hrest
  | cons c l ih =>
    simp only [List.mem_cons, not_or] at hq hz
    have hc1 : c ≠ '\x00' := fun h => hz.1 h.symm
    have hc2 : c ≠ '"' := fun h => hq.1 h.symm
    rw [List.cons_append, scanQuoted_other c _ hc1 hc2, ih hq.2 hz.2]
    rfl

theorem insertResultSQL_data (w r : String) :
    (insertResultSQL w r).data
      = "INSERT INTO definition (word, results) VALUES (\"".data
          ++ (w.data ++ '"' :: (", \"".data ++ (r.data ++ '"' :: ");".data))) := by
  simp [insertResultSQL, String.data_append]

/-- The insertion statement written for a plain word and a plain text inserts
that very row. -/
theorem sqlitePrepareInsert_plain (w r : String) (hw : Plain w) (hr : Plain r) :
    sqlitePrepareInsert (insertResultSQL w r) = Sql.done (w, r) := by
  unfold sqlitePrepareInsert
  rw [insertResultSQL_data, stripLead_append]
  simp only
  rw [scanQuoted_plain w.data _ hw.1 hw.2 (by intro cs h; cases h)]
  simp only
  rw [stripLead_append]
  simp only
  rw [scanQuoted_plain r.data _ hr.1 hr.2 (by intro cs h; cases h)]
  rfl

theorem queryByWordSQL_data (w : String) :
    (queryByWordSQL w).data
      = "SELECT results FROM definition WHERE word=\"".data ++ (w.data ++ '"' :: ";".data) := by
  simp [queryByWordSQL, String.data_append]

/-- The lookup statement written for a plain word compares the column `word`
with what SQLite resolves that word to. -/
theorem sqlitePrepareSelect_plain (w : String) (hw : Plain w) :
    sqlitePrepareSelect (queryByWordSQL w) = resolveQuoted w := by
  unfold sqlitePrepareSelect
  rw [queryByWordSQL_data, stripLead_append]
  simp only
  rw [scanQuoted_plain w.data _ hw.1 hw.2 (by intro cs h; cases h)]
  rfl

theorem resolveQuoted_notColumn (w : String) (hw : NotColumn w) :
    resolveQuoted w = Sql.done (Operand.literal w) := by
  unfold NotColumn at hw
  simp only [List.mem_cons, List.mem_singleton, not_or, List.not_mem_nil, or_false] at hw
  simp [resolveQuoted, hw]

theorem queryResultsByWord_plain (env : Env) (w : String) (db : DB) (hw : Plain w)
    (hc : NotColumn w) :
    queryResultsByWord env w db
      = (match db.find? (fun row => decide (row.1 = w)) with
          | some row => Looked.row row.2 db
          | none => Looked.noRow db) := by
  unfold queryResultsByWord
  rw [sqlitePrepareSelect_plain w hw, resolveQuoted_notColumn w hc]
  rfl

theorem addResult_plain (env : Env) (w r : String) (db : DB) (hw : Plain w) (hr : Plain r) :
    addResult env false w r db = some (db ++ [(w, r)]) := by
  unfold addResult
  rw [sqlitePrepareInsert_plain w r hw hr]
  rfl

/-- Cache hit on a plain word that names no column: the text of the first row
under the lowercase word is printed, with no request and no change of the
store. -/
theorem search_hit_plain (env : Env) (db : DB) (p cmd w : String) (more : List String)
    (row : Row) (hw : Plain (env.toLower w)) (hc : NotColumn (env.toLower w))
    (hfind : db.find? (fun row => decide (row.1 = env.toLower w)) = some row)
    (ht : row.2 ≠ "") :
    search env (p :: cmd :: w :: more) db
      = ⟨row.2 ++ "\n", none, db, [queryByWordSQL (env.toLower w)], []⟩ := by
  refine search_of_text env db db p cmd w row.2 more ?_ ht
  rw [queryResultsByWord_plain env _ db hw hc, hfind]

/-- Cache miss on a plain word that names no column, with a non-empty reply
whose rendering is plain: the rendering is printed and appended to the store
under the lowercase word. -/
theorem search_miss_plain (env : Env) (db : DB) (p cmd w : String) (more : List String)
    (rs : SearchResults) (hw : Plain (env.toLower w)) (hc : NotColumn (env.toLower w))
    (hmiss : ∀ row ∈ db, row.1 ≠ env.toLower w)
    (hreply : env.httpGet (searchURL (env.toLower w)) = Reply.decoded rs) (hrs : rs ≠ [])
    (hr : Plain (SearchResults_String rs)) :
    search env (p :: cmd :: w :: more) db
      = ⟨SearchResults_String rs ++ "\n", none,
          db ++ [(env.toLower w, SearchResults_String rs)],
          [queryByWordSQL (env.toLower w),
            insertResultSQL (env.toLower w) (SearchResults_String rs)],
          [searchURL (env.toLower w)]⟩ := by
  have hfind : db.find? (fun row => decide (row.1 = env.toLower w)) = none := by
    rw [List.find?_eq_none]
    intro row hrow
    simpa using hmiss row hrow
  have hlook : queryResultsByWord env (env.toLower w) db = Looked.noRow db := by
    rw [queryResultsByWord_plain env _ db hw hc, hfind]
  have hlen : ¬ rs.length = 0 := fun h => hrs (List.length_eq_zero.1 h)
  rw [search_of_no_text env db p cmd w more (by rw [hlook]; exact Or.inr rfl), hlook]
  simp only [searchRemote, hreply, if_neg hlen, Looked.held, Looked.db]
  rw [addResult_plain env _ _ db hw hr]

/-- Reading back the row that a miss appended gives the stored text. -/
theorem search_reread_plain (env : Env) (w r : String) (db : DB) (hw : Plain w)
    (hc : NotColumn w) (hmiss : ∀ row ∈ db, row.1 ≠ w) :
    queryResultsByWord env w (db ++ [(w, r)]) = Looked.row r (db ++ [(w, r)]) := by
  rw [queryResultsByWord_plain env w _ hw hc]
  have hfind : (db ++ [(w, r)]).find? (fun row => decide (row.1 = w)) = some (w, r) := by
    induction db with
    | nil => simp
    | cons x rest ih =>
      have hx : x.1 ≠ w := hmiss x (List.mem_cons_self _ _)
      simp only [List.cons_append, List.find?_cons, hx, decide_False]
      exact ih fun row hrow => hmiss row (List.mem_cons_of_mem _ hrow)
  rw [hfind]

/-! ## One row per word on plain runs -/

theorem SearchResults_String_ne_empty (rs : SearchResults) (hne : rs ≠ []) :
    SearchResults_String rs ≠ "" := by
  unfold SearchResults_String
  rw [SearchResults_String_loop_eq]
  cases rs with
  | nil => exact absurd rfl hne
  | cons sr rest =>
    simp only [specResultsTextFrom, String.append_assoc, String.empty_append]
    exact append_ne_empty _ _ (by decide)

/-- Empty reply on a plain word that names no column and has no non-empty
stored text: nothing is printed and the store is unchanged. -/
theorem search_empty_plain (env : Env) (db : DB) (p cmd w : String) (more : List String)
    (hw : Plain (env.toLower w)) (hc : NotColumn (env.toLower w))
    (hmiss : ∀ row ∈ db, row.1 = env.toLower w → row.2 = "")
    (hreply : env.httpGet (searchURL (env.toLower w)) = Reply.decoded []) :
    search env (p :: cmd :: w :: more) db
      = ⟨"", none, db, [queryByWordSQL (env.toLower w)], [searchURL (env.toLower w)]⟩ := by
  have hlook : (queryResultsByWord env (env.toLower w) db).sr = ""
      ∧ (queryResultsByWord env (env.toLower w) db).db = db := by
    rw [queryResultsByWord_plain env _ db hw hc]
    cases hfind : db.find? (fun row => decide (row.1 = env.toLower w)) with
    | none => exact ⟨rfl, rfl⟩
    | some row =>
      have h1 := List.find?_some hfind
      have h2 := List.mem_of_find?_eq_some hfind
      exact ⟨hmiss row h2 (by simpa using h1), rfl⟩
  rw [search_of_no_text env db p cmd w more (Or.inr hlook.1)]
  simp [searchRemote, hreply, hlook.2]

/-- A run of `search` on a plain word that names no column, on a store with
one row per word and no empty text, keeps such a store, leaves its rows in
place and appends at most one row. -/
theorem search_keeps_one_entry (env : Env) (db : DB) (p cmd w : String) (more : List String)
    (hrun : PlainRun env (p :: cmd :: w :: more)) (hdb : OneEntryPerWord db) :
    OneEntryPerWord (search env (p :: cmd :: w :: more) db).db
      ∧ ((search env (p :: cmd :: w :: more) db).db = db
          ∨ ∃ row, (search env (p :: cmd :: w :: more) db).db = db ++ [row]) := by
  obtain ⟨hw, hc, hr⟩ := hrun p cmd w more rfl
  cases hfind : db.find? (fun row => decide (row.1 = env.toLower w)) with
  | some row =>
    have hmem := List.mem_of_find?_eq_some hfind
    rw [search_hit_plain env db p cmd w more row hw hc hfind (hdb.2 row hmem)]
    exact ⟨hdb, Or.inl rfl⟩
  | none =>
    have hmiss : ∀ row ∈ db, row.1 ≠ env.toLower w := by
      intro row hrow
      have := List.find?_eq_none.1 hfind row hrow
      simpa using this
    have hlook : queryResultsByWord env (env.toLower w) db = Looked.noRow db := by
      rw [queryResultsByWord_plain env _ db hw hc, hfind]
    cases hreply : env.httpGet (searchURL (env.toLower w)) with
    | unreachable msg =>
      rw [search_of_no_text env db p cmd w more (by rw [hlook]; exact Or.inr rfl), hlook]
      simp only [searchRemote, hreply, Looked.db]
      exact ⟨hdb, Or.inl trivial⟩
    | undecodable =>
      rw [search_of_no_text env db p cmd w more (by rw [hlook]; exact Or.inr rfl), hlook]
      simp only [searchRemote, hreply, Looked.db]
      exact ⟨hdb, Or.inl trivial⟩
    | decoded rs =>
      by_cases hrs : rs = []
      · subst hrs
        rw [search_empty_plain env db p cmd w more hw hc
          (fun row hrow hkey => absurd hkey (hmiss row hrow)) hreply]
        exact ⟨hdb, Or.inl rfl⟩
      · rw [search_miss_plain env db p cmd w more rs hw hc hmiss hreply hrs
          (hr rs hreply hrs)]
        refine ⟨⟨?_, ?_⟩, Or.inr ⟨_, rfl⟩⟩
        · simp only [List.map_append, List.map_cons, List.map_nil]
          refine List.Nodup.append hdb.1 (List.nodup_singleton _) ?_
          intro x hx hx2
          simp only [List.mem_singleton] at hx2
          obtain ⟨row, hrow, hkey⟩ := List.mem_map.1 hx
          exact hmiss row hrow (hkey.trans hx2)
        · intro row hrow
          simp only [List.mem_append, List.mem_singleton] at hrow
          rcases hrow with hrow | hrow
          · exact hdb.2 row hrow
          · rw [hrow]
            exact SearchResults_String_ne_empty rs hrs

theorem main_keeps_one_entry (env : Env) (args : List String) (db : DB)
    (hrun : PlainRun env args) (hdb : OneEntryPerWord db) :
    OneEntryPerWord (main env args db).db
      ∧ ((main env args db).db = db ∨ ∃ row, (main env args db).db = db ++ [row]) := by
  unfold main
  split
  · dsimp only
    split
    · unfold help
      split <;> exact ⟨hdb, Or.inl rfl⟩
    · split
      · exact ⟨hdb, Or.inl rfl⟩
      · split
        · rename_i p cmd rest _ _ _
          cases rest with
          | nil => exact ⟨hdb, Or.inl rfl⟩
          | cons w more => exact search_keeps_one_entry env db p cmd w more hrun hdb
        · exact ⟨hdb, Or.inl rfl⟩
  · exact ⟨hdb, Or.inl rfl⟩

/-- Runs on plain words that name no column keep one row per word. -/
theorem runAll_keeps_one_entry (runs : List (Env × List String)) (db : DB)
    (hruns : ∀ run ∈ runs, PlainRun run.1 run.2) (hdb : OneEntryPerWord db) :
    OneEntryPerWord (runAll runs db) := by
  induction runs generalizing db with
  | nil => exact hdb
  | cons run rest ih =>
    obtain ⟨env, args⟩ := run
    simp only [runAll]
    exact ih _ (fun r hr => hruns r (List.mem_cons_of_mem _ hr))
      (main_keeps_one_entry env args db (hruns (env, args) (List.mem_cons_self _ _)) hdb).1

/-! ## The worked example and the reserved words -/

theorem probeText_eq : SearchResults_String probeResponse = probeText := by decide

theorem probeText_plain : Plain probeText := by constructor <;> decide

/-- Claim C8: on the empty store, with the remote response of the example for
`probe`, `search probe` prints a text that contains `noun`, `a test` and
`this is a test` (it prints the rendering and a newline, and stores the
rendering under `probe`), and a following `list --oneline`, whatever its
environment, prints a text that contains `probe` (it prints `Word: probe`). -/
theorem c8_worked_example (env env2 : Env) (p p2 : String)
    (hs : env.toLower "search" = "search") (hp : env.toLower "probe" = "probe")
    (hr : env.httpGet (searchURL "probe") = Reply.decoded probeResponse)
    (hl : env2.toLower "list" = "list") :
    ∃ o1 o2 : Outcome,
      main env [p, "search", "probe"] initDB = o1
        ∧ o1.stdout = probeText ++ "\n"
        ∧ Contains o1.stdout "noun" ∧ Contains o1.stdout "a test"
        ∧ Contains o1.stdout "this is a test"
        ∧ o1.db = [("probe", probeText)]
        ∧ main env2 [p2, "list", "--oneline"] o1.db = o2
        ∧ o2.stdout = "Word: probe\n"
        ∧ Contains o2.stdout "probe" := by
  have h1 := search_miss_plain env initDB p "search" "probe" [] probeResponse
    (by rw [hp]; constructor <;> decide) (by rw [hp]; unfold NotColumn; decide)
    (by intro row hrow; cases hrow) (by rw [hp]; exact hr) (by decide)
    (by rw [probeText_eq]; exact probeText_plain)
  rw [hp, probeText_eq] at h1
  have hrange : env2.rangeOrder (retrieveAllResults [("probe", probeText)])
      = [("probe", probeText)] :=
    List.perm_singleton.1 (env2.rangeOrder_perm _)
  refine ⟨_, list env2 [p2, "list", "--oneline"] [("probe", probeText)],
    (main_search env initDB p "search" ["probe"] hs).trans h1, rfl, ?_, ?_, ?_, rfl,
    main_list env2 _ p2 "list" ["--oneline"] hl, ?_, ?_⟩
  · exact ⟨"Definition 0: \n\n\t",
      "\n\t\tDefinition: \n \t\t\t\t a test\n\t\tExample: \n \t\t\t\t this is a test\n\n\n",
      by decide⟩
  · exact ⟨"Definition 0: \n\n\tnoun\n\t\tDefinition: \n \t\t\t\t ",
      "\n\t\tExample: \n \t\t\t\t this is a test\n\n\n", by decide⟩
  · exact ⟨"Definition 0: \n\n\tnoun\n\t\tDefinition: \n \t\t\t\t a test\n\t\tExample: \n \t\t\t\t ",
      "\n\n\n", by decide⟩
  · rw [list_oneline, hrange]
    decide
  · rw [list_oneline, hrange]
    exact ⟨"Word: ", "\n", by decide⟩

/-- Claim C8 in the environment of the worked examples. -/
theorem c8_worked_example_witness :
    ∃ o1 o2 : Outcome,
      main (envWith (Reply.decoded probeResponse)) ["dictionarylogger", "search", "probe"] initDB
          = o1
        ∧ o1.stdout = probeText ++ "\n"
        ∧ Contains o1.stdout "noun" ∧ Contains o1.stdout "a test"
        ∧ Contains o1.stdout "this is a test"
        ∧ o1.db = [("probe", probeText)]
        ∧ main (envWith Reply.undecodable) ["dictionarylogger", "list", "--oneline"] o1.db
            = o2
        ∧ o2.stdout = "Word: probe\n"
        ∧ Contains o2.stdout "probe" :=
  c8_worked_example (envWith (Reply.decoded probeResponse)) (envWith Reply.undecodable)
    "dictionarylogger" "dictionarylogger" (by decide) (by decide) (by decide) (by decide)

/-- Claim C1 at failing inputs.  The store holds the non-empty text
`probeText` under `results`, yet `search results` selects no row (SQLite reads
the quoted word as the column `results`), calls the remote service and, the
reply being empty, prints nothing.  And on a store that holds `W` under
`word`, `search word` selects every row and prints the text stored under
`apple`. -/
theorem c1_hit_on_column_name :
    main (envWith (Reply.decoded [])) ["dictionarylogger", "search", "results"]
        [("results", probeText)]
      = ⟨"", none, [("results", probeText)], [queryByWordSQL "results"],
          [searchURL "results"]⟩
    ∧ main (envWith (Reply.decoded [])) ["dictionarylogger", "search", "word"]
        [("apple", probeText), ("word", "W")]
      = ⟨probeText ++ "\n", none, [("apple", probeText), ("word", "W")],
          [queryByWordSQL "word"], []⟩ := by
  decide

/-- Claim C2 at failing inputs.  On the empty store `search results` prints and
stores the rendering, but reading the entry back gives the empty text and the
next `search results` calls the remote service again and appends a second
row.  And for `search greet` with a definition that holds doubled double
quotes, the text read back differs from the text printed. -/
theorem c2_round_trip_lost :
    main (envWith (Reply.decoded probeResponse)) ["dictionarylogger", "search", "results"] initDB
      = ⟨probeText ++ "\n", none, [("results", probeText)],
          [queryByWordSQL "results", insertResultSQL "results" probeText],
          [searchURL "results"]⟩
    ∧ queryResultsByWord (envWith (Reply.decoded probeResponse)) "results"
        [("results", probeText)]
      = Looked.noRow [("results", probeText)]
    ∧ main (envWith (Reply.decoded probeResponse)) ["dictionarylogger", "search", "results"]
        [("results", probeText)]
      = ⟨probeText ++ "\n", none, [("results", probeText), ("results", probeText)],
          [queryByWordSQL "results", insertResultSQL "results" probeText],
          [searchURL "results"]⟩
    ∧ (∃ o, main (envWith (Reply.decoded quotedResponse)) ["dictionarylogger", "search", "greet"]
          initDB = o
        ∧ o.stdout = SearchResults_String quotedResponse ++ "\n"
        ∧ queryResultsByWord (envWith (Reply.decoded quotedResponse)) "greet" o.db
            = Looked.row "Definition 0: \n\n\tverb\n\t\tDefinition: \n \t\t\t\t to say \"hi\"\n\t\tExample: \n \t\t\t\t hello\n\n" o.db
        ∧ SearchResults_String quotedResponse
            ≠ "Definition 0: \n\n\tverb\n\t\tDefinition: \n \t\t\t\t to say \"hi\"\n\t\tExample: \n \t\t\t\t hello\n\n") := by
  refine ⟨by decide, by decide, by decide, ⟨_, rfl, by decide, by decide, by decide⟩⟩

/-- Claim C4 at a failing input.  Nothing is stored under `word` and the remote
reply is empty, yet `search word` prints the text stored under `apple` and
makes no request. -/
theorem c4_empty_remote_prints :
    main (envWith (Reply.decoded [])) ["dictionarylogger", "search", "word"]
        [("apple", probeText)]
      = ⟨probeText ++ "\n", none, [("apple", probeText)], [queryByWordSQL "word"], []⟩ := by
  decide

/-- Claim C5 at a failing input.  From the empty store, two runs of
`search results` leave two rows under `results`. -/
theorem c5_duplicate_rows :
    runAll [(envWith (Reply.decoded probeResponse), ["dictionarylogger", "search", "results"]),
        (envWith (Reply.decoded probeResponse), ["dictionarylogger", "search", "results"])]
        initDB
      = [("results", probeText), ("results", probeText)]
    ∧ ¬ ([("results", probeText), ("results", probeText)].map Prod.fst).Nodup := by
  decide

/-- Claim C6 at failing inputs.  `search results` appends a row although the
store holds a non-empty text under `results`; and `search` of a word with a
doubled double quote stores under a key that is not the lowercase word. -/
theorem c6_insert_on_hit :
    main (envWith (Reply.decoded probeResponse)) ["dictionarylogger", "search", "results"]
        [("results", "stored earlier")]
      = ⟨probeText ++ "\n", none, [("results", "stored earlier"), ("results", probeText)],
          [queryByWordSQL "results", insertResultSQL "results" probeText],
          [searchURL "results"]⟩
    ∧ main (envWith (Reply.decoded probeResponse)) ["dictionarylogger", "search", "a\"\"b"]
        initDB
      = ⟨probeText ++ "\n", none, [("a\"b", probeText)],
          [queryByWordSQL "a\"\"b", insertResultSQL "a\"\"b" probeText],
          [searchURL "a\"\"b"]⟩ := by
  decide

end DictionaryLogger
